import Mathlib

/-!
Verification of the mailbox-listing response-line parser of
`src/electronicmail/imap.py` (`Client.list`, lines 241-357).

The Python code scans one response line `resp : bytes` with an explicit
state machine kept in the string variable `state`, an index `i`, the
accumulator variables `name_attributes` (a set of byte strings),
`hierarchy_delimiter`, `name`, and the three begin-index variables.
Every malformed condition is an unconditional `assert`, so on malformed
input the function raises an uncaught `AssertionError` (an unhandled
fault) at the current scan position rather than returning an error value.

The model below is a byte-for-byte shallow embedding: bytes are `Nat`,
`resp[a:b]` is `pslice resp a b`, the one-byte slice comparison
`b'x' == resp[i:i+1]` is `byteAt resp i = some x`, and every `assert`
becomes a `StepResult.crash` carrying the scan position `i` at which the
Python `AssertionError` would be raised.  The Python set is modelled as
the insertion-ordered list of its elements; the `assert name_attr not in
name_attributes` guard keeps it duplicate-free exactly as in the source.
-/

/-- Byte value of each character of an ASCII string, used to write the
concrete response lines of the test vectors. -/
def strBytes (s : String) : List Nat := s.toList.map Char.toNat

/-- Python one-byte lookup `resp[i]`; `none` when `i` is out of range
(where the Python slice `resp[i:i+1]` is the empty byte string). -/
def byteAt : List Nat → Nat → Option Nat
  | [], _ => none
  | b :: _, 0 => some b
  | _ :: bs, n + 1 => byteAt bs n

/-- Python slice `resp[a:b]` (for the in-range slices the code takes). -/
def pslice (resp : List Nat) (a b : Nat) : List Nat := (resp.take b).drop a

/-- The values of the Python `state` string variable, same spellings. -/
inductive PState
  | INIT
  | READ_NAME_ATTRIBUTE_BEGIN
  | READ_NAME_ATTRIBUTE_INSIDE
  | READ_HIERARCHY_DELIMITER_INSIDE
  | READ_NAME_INSIDE
  | DONE
deriving DecidableEq, Repr

/-- The local variables of one iteration of the `Client.list` scan loop.
`hierarchy_delimeter` is the misspelled variable of line 236, which is
initialised to `None` and never reassigned (line 314 assigns the
correctly spelled `hierarchy_delimiter`, a distinct Python local); it is
kept so that the `assert None == hierarchy_delimeter` of line 313 is
modelled faithfully. -/
structure Machine where
  i : Nat
  state : PState
  name_attributes : List (List Nat)
  hierarchy_delimeter : Option (List Nat)
  hierarchy_delimiter : Option (List Nat)
  name : Option (List Nat)
  name_attribute_begin_index : Option Nat
  hierarchy_delimiter_begin_index : Option Nat
  name_begin_index : Option Nat
deriving DecidableEq, Repr

/-- The record appended to `mailboxes` for one successfully scanned
response line (lines 353-357). -/
structure MailboxEntry where
  name_attributes : List (List Nat)
  hierarchy_delimiter : Option (List Nat)
  name : Option (List Nat)
deriving DecidableEq, Repr

/-- Result of one iteration of the `while True` loop: continue with the
updated variables, leave the loop successfully (the `break` of line 347
followed by the asserts of lines 349-351 and the append of 353-357), or
raise an uncaught `AssertionError` at scan position `pos`. -/
inductive StepResult
  | next (m : Machine)
  | success (e : MailboxEntry)
  | crash (pos : Nat)
deriving DecidableEq, Repr

/-- Final outcome of scanning one response line. -/
inductive Outcome
  | success (e : MailboxEntry)
  | crash (pos : Nat)
deriving DecidableEq, Repr

/-- Variable initialisation of lines 235-246. -/
def initMachine : Machine :=
  { i := 0
    state := .INIT
    name_attributes := []
    hierarchy_delimeter := none
    hierarchy_delimiter := none
    name := none
    name_attribute_begin_index := none
    hierarchy_delimiter_begin_index := none
    name_begin_index := none }

/-- One iteration of the `while True` loop of lines 248-347, including
the loop-head `assert 0 <= i and i <= len(resp)` of line 250.  Byte
values: `'('` = 40, `')'` = 41, `' '` = 32, `'"'` = 34, `'\'` = 92. -/
def step (resp : List Nat) (m : Machine) : StepResult :=
  if resp.length < m.i then .crash m.i
  else
    match m.state with
    | .INIT =>
        if m.i ≠ 0 then .crash m.i
        else if byteAt resp 0 ≠ some 40 then .crash m.i
        else .next { m with state := .READ_NAME_ATTRIBUTE_BEGIN, i := 1 }
    | .READ_NAME_ATTRIBUTE_BEGIN =>
        if m.i = 0 ∨ resp.length ≤ m.i then .crash m.i
        else if byteAt resp m.i ≠ some 92 then .crash m.i
        else if m.name_attribute_begin_index ≠ none then .crash m.i
        else .next { m with
          name_attribute_begin_index := some m.i
          state := .READ_NAME_ATTRIBUTE_INSIDE
          i := m.i + 1 }
    | .READ_NAME_ATTRIBUTE_INSIDE =>
        if m.i = 0 ∨ resp.length ≤ m.i then .crash m.i
        else
          match byteAt resp m.i with
          | none => .crash m.i
          | some c =>
            if c = 32 ∨ c = 41 then
              if pslice resp (m.name_attribute_begin_index.getD 0) m.i
                  ∈ m.name_attributes then .crash m.i
              else if c = 32 then
                .next { m with
                  name_attributes := m.name_attributes ++
                    [pslice resp (m.name_attribute_begin_index.getD 0) m.i]
                  name_attribute_begin_index := none
                  state := .READ_NAME_ATTRIBUTE_BEGIN
                  i := m.i + 1 }
              else if byteAt resp (m.i + 1) ≠ some 32 then .crash m.i
              else if byteAt resp (m.i + 2) ≠ some 34 then .crash m.i
              else if m.hierarchy_delimiter_begin_index ≠ none then .crash m.i
              else
                .next { m with
                  name_attributes := m.name_attributes ++
                    [pslice resp (m.name_attribute_begin_index.getD 0) m.i]
                  name_attribute_begin_index := none
                  hierarchy_delimiter_begin_index := some (m.i + 3)
                  state := .READ_HIERARCHY_DELIMITER_INSIDE
                  i := m.i + 3 }
            else .next { m with i := m.i + 1 }
    | .READ_HIERARCHY_DELIMITER_INSIDE =>
        if m.i = 0 ∨ resp.length ≤ m.i then .crash m.i
        else
          match byteAt resp m.i with
          | none => .crash m.i
          | some c =>
            if c = 34 then
              if byteAt resp (m.i + 1) ≠ some 32 then .crash m.i
              else if byteAt resp (m.i + 2) ≠ some 34 then .crash m.i
              else if m.hierarchy_delimeter ≠ none then .crash m.i
              else if m.name_begin_index ≠ none then .crash m.i
              else
                .next { m with
                  hierarchy_delimiter := some (pslice resp
                    (m.hierarchy_delimiter_begin_index.getD 0) m.i)
                  hierarchy_delimiter_begin_index := none
                  name_begin_index := some (m.i + 3)
                  state := .READ_NAME_INSIDE
                  i := m.i + 3 }
            else .next { m with i := m.i + 1 }
    | .READ_NAME_INSIDE =>
        if m.i = 0 ∨ resp.length ≤ m.i then .crash m.i
        else
          match byteAt resp m.i with
          | none => .crash m.i
          | some c =>
            if c = 34 then
              if m.i + 1 ≠ resp.length then .crash m.i
              else if m.name ≠ none then .crash m.i
              else
                .next { m with
                  name := some (pslice resp (m.name_begin_index.getD 0) m.i)
                  name_begin_index := none
                  state := .DONE
                  i := m.i + 1 }
            else .next { m with i := m.i + 1 }
    | .DONE =>
        if m.i ≠ resp.length then .crash m.i
        else if m.name_attribute_begin_index ≠ none then .crash m.i
        else if m.hierarchy_delimiter_begin_index ≠ none then .crash m.i
        else if m.name_begin_index ≠ none then .crash m.i
        else
          .success { name_attributes := m.name_attributes
                     hierarchy_delimiter := m.hierarchy_delimiter
                     name := m.name }

/-- Fuelled iteration of the loop; `none` means the fuel ran out before
the loop terminated (this never happens for the fuel `parse` supplies,
as proved below). -/
def run (resp : List Nat) : Nat → Machine → Option Outcome
  | 0, _ => none
  | fuel + 1, m =>
    match step resp m with
    | .next m' => run resp fuel m'
    | .success e => some (.success e)
    | .crash p => some (.crash p)

/-- The whole per-response-line body of `Client.list`: scan the line
from the initial variables.  The scan position strictly increases at
every continuing step, so `resp.length + 2` iterations always suffice. -/
def parse (resp : List Nat) : Option Outcome :=
  run resp (resp.length + 2) initMachine

/-- Response line `b'x'`: no opening parenthesis at all. -/
def lineNoParen : List Nat := strBytes "x"

/-- Response line `b'(\HasNoChildren) "/" "INBOX"'`. -/
def lineInbox : List Nat := strBytes "(\\HasNoChildren) \"/\" \"INBOX\""

/-- Response line `b'(\Marked \HasChildren) "/" "Inbox\\Archive"'` — the
name field holds the two raw bytes `\` `\` between its quotes. -/
def lineEscaped : List Nat :=
  strBytes "(\\Marked \\HasChildren) \"/\" \"Inbox\\\\Archive\""

/-- Response line `b'(\Noselect) NIL "Top Level"'`. -/
def lineNil : List Nat := strBytes "(\\Noselect) NIL \"Top Level\""

/-- Response line `b'() "." ""'`: empty attribute list and empty name. -/
def lineEmptyAttrs : List Nat := strBytes "() \".\" \"\""

/-- Response line `b'(\A \A) "/" "X"'`: the attribute `\A` twice. -/
def lineDupAttr : List Nat := strBytes "(\\A \\A) \"/\" \"X\""

/-- Response line `b'(\A) "ab" "X"'`: a two-character delimiter field. -/
def lineTwoCharDelim : List Nat := strBytes "(\\A) \"ab\" \"X\""

/-- Response line `b'(\A1!) "/" "X"'`: an attribute token with a digit
and punctuation after the backslash. -/
def lineNonAlphaAttr : List Nat := strBytes "(\\A1!) \"/\" \"X\""

/-- C1: the claim says the parser returns a success value or one of the
enumerated error kinds and never raises an unhandled fault on malformed
input.  The code has no error kinds at all: already on the line `b'x'`
the `assert b'(' == resp[i:i+1]` of the `INIT` state (line 255) fails,
i.e. `Client.list` raises an uncaught `AssertionError` at scan position
0 instead of returning an error value. -/
theorem parse_crashes_on_malformed_input :
    parse lineNoParen = some (.crash 0) := by rfl

/-- C2: the claim says a backslash escape inside the name field is
decoded (`\\` to one literal backslash) and a bad escape gives
`InvalidEscape`.  The `READ_NAME_INSIDE` state (lines 326-342) has no
escape handling at all: on
`b'(\Marked \HasChildren) "/" "Inbox\\Archive"'` the code succeeds and
copies the name bytes verbatim, so the returned name still holds the two
consecutive backslash bytes `92, 92`, not one decoded backslash. -/
theorem parse_does_not_decode_name_escapes :
    parse lineEscaped = some (.success
      { name_attributes := [strBytes "\\Marked", strBytes "\\HasChildren"]
        hierarchy_delimiter := some (strBytes "/")
        name := some (strBytes "Inbox\\\\Archive") }) := by rfl

/-- C3: the claim says a `NIL` delimiter field parses successfully with
the delimiter absent.  The code unconditionally asserts that the byte
two places after `)` is `"` (line 293); on
`b'(\Noselect) NIL "Top Level"'` that byte is the `N` of `NIL`, so the
code raises an uncaught `AssertionError` at scan position 10 (the `)`). -/
theorem parse_crashes_on_nil_delimiter :
    parse lineNil = some (.crash 10) := by rfl

/-- C4: the claim says the empty attribute list `()` is valid and yields
an empty attribute set.  The `READ_NAME_ATTRIBUTE_BEGIN` state asserts
that the current byte is a backslash (line 263); on `b'() "." ""'` the
byte at position 1 is `)`, so the code raises an uncaught
`AssertionError` at scan position 1. -/
theorem parse_crashes_on_empty_attribute_list :
    parse lineEmptyAttrs = some (.crash 1) := by rfl

/-- C5: the claim says a duplicated attribute token yields a
`DuplicateAttribute` error carrying the offset of the second occurrence
(offset 4 here) rather than crashing.  The code instead has the
unconditional `assert name_attr not in name_attributes` (line 279): on
`b'(\A \A) "/" "X"'` it raises an uncaught `AssertionError` while the
scan sits at position 6 (the `)` terminating the second `\A`), so the
whole call crashes instead of returning a typed error. -/
theorem parse_crashes_on_duplicate_attribute :
    parse lineDupAttr = some (.crash 6) := by rfl

/-- C6: the claim says the delimiter field must be `NIL` or exactly one
quoted character, anything else failing with `MalformedDelimiter`.  The
`READ_HIERARCHY_DELIMITER_INSIDE` state (lines 304-324) just scans to
the next `"` and records everything in between: on `b'(\A) "ab" "X"'`
the code succeeds with the two-character delimiter `ab` (and there is no
`MalformedDelimiter` anywhere in the code). -/
theorem parse_accepts_multichar_delimiter :
    parse lineTwoCharDelim = some (.success
      { name_attributes := [strBytes "\\A"]
        hierarchy_delimiter := some (strBytes "ab")
        name := some (strBytes "X") }) ∧
    (strBytes "ab").length ≠ 1 := by exact ⟨rfl, by decide⟩

/-- C8: `parse(b'(\HasNoChildren) "/" "INBOX"')` succeeds with the
attribute set holding exactly `\HasNoChildren`, hierarchy delimiter `/`,
and name `INBOX`. -/
theorem parse_inbox_example :
    parse lineInbox = some (.success
      { name_attributes := [strBytes "\\HasNoChildren"]
        hierarchy_delimiter := some (strBytes "/")
        name := some (strBytes "INBOX") }) := by rfl

/-- A successful one-byte lookup implies the index is in range. -/
theorem byteAt_lt_length {resp : List Nat} {j c : Nat}
    (h : byteAt resp j = some c) : j < resp.length := by
  induction resp generalizing j with
  | nil => simp [byteAt] at h
  | cons b bs ih =>
    cases j with
    | zero => simp
    | succ n =>
      simp only [byteAt] at h
      simpa using Nat.succ_lt_succ (ih h)

/-- Every continuing iteration of the scan loop strictly increases the
scan position and keeps it bounded by the length of the line. -/
theorem step_next_bounds {resp : List Nat} {m m' : Machine}
    (h : step resp m = StepResult.next m') :
    m.i < m'.i ∧ m'.i ≤ resp.length := by
  unfold step at h
  split at h
  · exact StepResult.noConfusion h
  rename_i hlen
  split at h
  -- INIT
  · split at h
    · exact StepResult.noConfusion h
    rename_i hi
    split at h
    · exact StepResult.noConfusion h
    rename_i hb
    rw [not_not] at hb
    have h0 := byteAt_lt_length hb
    injection h with h2
    subst h2
    dsimp only
    omega
  -- READ_NAME_ATTRIBUTE_BEGIN
  · split at h
    · exact StepResult.noConfusion h
    rename_i hi
    split at h
    · exact StepResult.noConfusion h
    split at h
    · exact StepResult.noConfusion h
    injection h with h2
    subst h2
    dsimp only
    omega
  -- READ_NAME_ATTRIBUTE_INSIDE
  · split at h
    · exact StepResult.noConfusion h
    rename_i hi
    split at h
    · exact StepResult.noConfusion h
    rename_i c hc
    split at h
    · split at h
      · exact StepResult.noConfusion h
      split at h
      · injection h with h2
        subst h2
        dsimp only
        omega
      split at h
      · exact StepResult.noConfusion h
      split at h
      · exact StepResult.noConfusion h
      rename_i hq
      split at h
      · exact StepResult.noConfusion h
      rw [not_not] at hq
      have h0 := byteAt_lt_length hq
      injection h with h2
      subst h2
      dsimp only
      omega
    · injection h with h2
      subst h2
      dsimp only
      omega
  -- READ_HIERARCHY_DELIMITER_INSIDE
  · split at h
    · exact StepResult.noConfusion h
    rename_i hi
    split at h
    · exact StepResult.noConfusion h
    rename_i c hc
    split at h
    · split at h
      · exact StepResult.noConfusion h
      split at h
      · exact StepResult.noConfusion h
      rename_i hq
      split at h
      · exact StepResult.noConfusion h
      split at h
      · exact StepResult.noConfusion h
      rw [not_not] at hq
      have h0 := byteAt_lt_length hq
      injection h with h2
      subst h2
      dsimp only
      omega
    · injection h with h2
      subst h2
      dsimp only
      omega
  -- READ_NAME_INSIDE
  · split at h
    · exact StepResult.noConfusion h
    rename_i hi
    split at h
    · exact StepResult.noConfusion h
    rename_i c hc
    split at h
    · split at h
      · exact StepResult.noConfusion h
      rename_i hend
      split at h
      · exact StepResult.noConfusion h
      rw [not_not] at hend
      injection h with h2
      subst h2
      dsimp only
      omega
    · injection h with h2
      subst h2
      dsimp only
      omega
  -- DONE
  · split at h
    · exact StepResult.noConfusion h
    split at h
    · exact StepResult.noConfusion h
    split at h
    · exact StepResult.noConfusion h
    split at h
    · exact StepResult.noConfusion h
    exact StepResult.noConfusion h

/-- With fuel exceeding the remaining distance to the end of the line,
the fuelled loop always reaches an outcome. -/
theorem run_isSome {resp : List Nat} :
    ∀ (fuel : Nat) (m : Machine), m.i ≤ resp.length →
      resp.length + 1 - m.i < fuel → (run resp fuel m).isSome := by
  intro fuel
  induction fuel with
  | zero =>
    intro m h1 h2
    omega
  | succ n ih =>
    intro m h1 h2
    cases hs : step resp m with
    | next m' =>
      have hb := step_next_bounds hs
      simp only [run, hs]
      exact ih m' hb.2 (by omega)
    | success e => simp [run, hs]
    | crash p => simp [run, hs]

/-- The scan of any response line reaches an outcome: the fuel
`resp.length + 2` supplied by `parse` is never exhausted. -/
theorem parse_isSome (resp : List Nat) : (parse resp).isSome := by
  have h0 : initMachine.i = 0 := rfl
  exact run_isSome (resp.length + 2) initMachine (by omega) (by omega)

/-- The machine after the very first iteration on a line opening with
`(`: state `READ_NAME_ATTRIBUTE_BEGIN`, scan position 1. -/
def mAfterInit : Machine :=
  { initMachine with state := .READ_NAME_ATTRIBUTE_BEGIN, i := 1 }

/-- C7: the scan is a single left-to-right pass: every continuing loop
iteration strictly increases the scan position, the position stays
bounded by the input length, and the scan always terminates — the fuel
`resp.length + 2` that `parse` gives the loop is never exhausted, so the
`while True` loop never runs unboundedly. -/
theorem scan_monotone_bounded_total (resp : List Nat) (m m' : Machine)
    (h : step resp m = StepResult.next m') :
    m.i < m'.i ∧ m'.i ≤ resp.length ∧ (parse resp).isSome :=
  ⟨(step_next_bounds h).1, (step_next_bounds h).2, parse_isSome resp⟩

/-- Concrete instance of the monotonicity/termination theorem at the
first iteration of the `INBOX` example line. -/
theorem scan_monotone_bounded_total_witness :
    initMachine.i < mAfterInit.i ∧ mAfterInit.i ≤ lineInbox.length ∧
      (parse lineInbox).isSome :=
  scan_monotone_bounded_total lineInbox initMachine mAfterInit (by rfl)

/-- C9: inside an attribute token, any byte other than `SP` (0x20) and
`)` (0x29) — digits, punctuation, anything non-ALPHA included — is
simply scanned over and so ends up verbatim in the recorded token
(state `READ_NAME_ATTRIBUTE_INSIDE`, the `else: i += 1` of line 302);
in particular `b'(\A1!) "/" "X"'` parses successfully and records the
attribute token `\A1!`. -/
theorem attribute_token_bytes_unrestricted (resp : List Nat) (m : Machine)
    (c : Nat) (hstate : m.state = PState.READ_NAME_ATTRIBUTE_INSIDE)
    (hpos : 0 < m.i) (hlt : m.i < resp.length)
    (hbyte : byteAt resp m.i = some c) (hsp : c ≠ 32) (hcl : c ≠ 41) :
    step resp m = StepResult.next { m with i := m.i + 1 } ∧
    parse lineNonAlphaAttr = some (.success
      { name_attributes := [strBytes "\\A1!"]
        hierarchy_delimiter := some (strBytes "/")
        name := some (strBytes "X") }) := by
  refine ⟨?_, by rfl⟩
  obtain ⟨i, st, attrs, hd1, hd2, nm, ab, db, nb⟩ := m
  simp only at hstate hpos hlt hbyte
  subst hstate
  unfold step
  simp only
  rw [if_neg (by omega), if_neg (by omega), hbyte]
  simp only
  rw [if_neg (by omega)]

/-- A reachable mid-scan machine on the `b'(\A1!) "/" "X"'` line: the
scan sits on the byte `1` (0x31) inside the attribute token. -/
def midAttributeMachine : Machine :=
  { i := 3
    state := .READ_NAME_ATTRIBUTE_INSIDE
    name_attributes := []
    hierarchy_delimeter := none
    hierarchy_delimiter := none
    name := none
    name_attribute_begin_index := some 1
    hierarchy_delimiter_begin_index := none
    name_begin_index := none }

/-- Concrete instance: the digit byte `1` inside an attribute token is
accepted, and the whole non-ALPHA-attribute line parses. -/
theorem attribute_token_bytes_unrestricted_witness :
    step lineNonAlphaAttr midAttributeMachine =
      StepResult.next { midAttributeMachine with i := midAttributeMachine.i + 1 } ∧
    parse lineNonAlphaAttr = some (.success
      { name_attributes := [strBytes "\\A1!"]
        hierarchy_delimiter := some (strBytes "/")
        name := some (strBytes "X") }) :=
  attribute_token_bytes_unrestricted lineNonAlphaAttr midAttributeMachine 49
    rfl (by decide) (by decide) (by decide) (by decide) (by decide)

/-- Every element of a slice `resp[a:b]` sits at some index `j` with
`a ≤ j < b` in the original line. -/
theorem mem_pslice : ∀ (resp : List Nat) (a b x : Nat), x ∈ pslice resp a b →
    ∃ j, a ≤ j ∧ j < b ∧ byteAt resp j = some x := by
  intro resp
  induction resp with
  | nil => intro a b x hx; simp [pslice] at hx
  | cons r rs ih =>
    intro a b x hx
    cases b with
    | zero => simp [pslice] at hx
    | succ b2 =>
      cases a with
      | zero =>
        simp only [pslice, List.take_succ_cons, List.drop_zero] at hx
        rcases List.mem_cons.mp hx with rfl | hx2
        · exact ⟨0, Nat.le_refl 0, Nat.succ_pos b2, rfl⟩
        · obtain ⟨j, h1, h2, h3⟩ := ih 0 b2 x (by simpa [pslice] using hx2)
          exact ⟨j + 1, Nat.zero_le _, Nat.succ_lt_succ h2, h3⟩
      | succ a2 =>
        have hx2 : x ∈ pslice rs a2 b2 := by
          simpa [pslice, List.take_succ_cons, List.drop_succ_cons] using hx
        obtain ⟨j, h1, h2, h3⟩ := ih a2 b2 x hx2
        exact ⟨j + 1, Nat.succ_le_succ h1, Nat.succ_lt_succ h2, h3⟩

/-- Scan-loop invariant used for the shape of the name field: while in
`READ_NAME_INSIDE` the begin index points just past a quote byte and no
quote byte has been scanned since; once in `DONE` the recorded name is
the verbatim slice from that begin index to the closing quote. -/
def NameInv (resp : List Nat) (m : Machine) : Prop :=
  (m.state = PState.READ_NAME_INSIDE →
    ∃ nb, m.name_begin_index = some nb ∧ nb ≤ m.i ∧
      byteAt resp (nb - 1) = some 34 ∧
      ∀ j, nb ≤ j → j < m.i → byteAt resp j ≠ some 34) ∧
  (m.state = PState.DONE →
    ∃ nb, m.name = some (pslice resp nb (m.i - 1)) ∧ 1 ≤ m.i ∧
      byteAt resp (nb - 1) = some 34 ∧ byteAt resp (m.i - 1) = some 34 ∧
      ∀ j, nb ≤ j → j < m.i - 1 → byteAt resp j ≠ some 34)

/-- The invariant holds trivially in every state other than
`READ_NAME_INSIDE` and `DONE`. -/
theorem nameInv_other {resp : List Nat} {m : Machine}
    (h1 : m.state ≠ PState.READ_NAME_INSIDE)
    (h2 : m.state ≠ PState.DONE) : NameInv resp m :=
  ⟨fun hst => absurd hst h1, fun hst => absurd hst h2⟩

/-- One loop iteration preserves the name-field invariant. -/
theorem step_preserves_NameInv {resp : List Nat} {m m' : Machine}
    (hInv : NameInv resp m) (h : step resp m = StepResult.next m') :
    NameInv resp m' := by
  obtain ⟨i, st, attrs, hd1, hd2, nm, ab, db, nbi⟩ := m
  unfold step at h
  split at h
  · exact StepResult.noConfusion h
  rename_i hlen
  cases st <;> dsimp only at h hInv
  case INIT =>
    split at h
    · exact StepResult.noConfusion h
    split at h
    · exact StepResult.noConfusion h
    injection h with h2
    subst h2
    exact nameInv_other (fun hst => by cases hst) (fun hst => by cases hst)
  case READ_NAME_ATTRIBUTE_BEGIN =>
    split at h
    · exact StepResult.noConfusion h
    split at h
    · exact StepResult.noConfusion h
    split at h
    · exact StepResult.noConfusion h
    injection h with h2
    subst h2
    exact nameInv_other (fun hst => by cases hst) (fun hst => by cases hst)
  case READ_NAME_ATTRIBUTE_INSIDE =>
    split at h
    · exact StepResult.noConfusion h
    split at h
    · exact StepResult.noConfusion h
    split at h
    · split at h
      · exact StepResult.noConfusion h
      split at h
      · injection h with h2
        subst h2
        exact nameInv_other (fun hst => by cases hst) (fun hst => by cases hst)
      split at h
      · exact StepResult.noConfusion h
      split at h
      · exact StepResult.noConfusion h
      split at h
      · exact StepResult.noConfusion h
      injection h with h2
      subst h2
      exact nameInv_other (fun hst => by cases hst) (fun hst => by cases hst)
    · injection h with h2
      subst h2
      exact nameInv_other (fun hst => by cases hst) (fun hst => by cases hst)
  case READ_HIERARCHY_DELIMITER_INSIDE =>
    split at h
    · exact StepResult.noConfusion h
    split at h
    · exact StepResult.noConfusion h
    rename_i c hc
    split at h
    · split at h
      · exact StepResult.noConfusion h
      split at h
      · exact StepResult.noConfusion h
      rename_i hq
      split at h
      · exact StepResult.noConfusion h
      split at h
      · exact StepResult.noConfusion h
      rw [not_not] at hq
      injection h with h2
      subst h2
      refine ⟨fun _ => ?_, fun hst => by cases hst⟩
      dsimp only
      exact ⟨i + 3, rfl, Nat.le_refl _, hq, fun j hj1 hj2 => by omega⟩
    · injection h with h2
      subst h2
      exact nameInv_other (fun hst => by cases hst) (fun hst => by cases hst)
  case READ_NAME_INSIDE =>
    split at h
    · exact StepResult.noConfusion h
    split at h
    · exact StepResult.noConfusion h
    rename_i c hc
    obtain ⟨nb0, hnb, hnble, hquote, hnoq⟩ := hInv.1 rfl
    dsimp only at hnb hnble hnoq
    split at h
    · rename_i hc34
      split at h
      · exact StepResult.noConfusion h
      rename_i hendlen
      split at h
      · exact StepResult.noConfusion h
      rw [not_not] at hendlen
      subst hc34
      injection h with h2
      subst h2
      constructor
      · intro hst
        cases hst
      · intro hdone
        dsimp only
        refine ⟨nb0, ?_, by omega, hquote, hc, ?_⟩
        · rw [hnb]
          rfl
        · intro j h1 h2
          exact hnoq j h1 (by omega)
    · rename_i hc34
      injection h with h2
      subst h2
      refine ⟨fun _ => ?_, fun hst => by cases hst⟩
      dsimp only
      refine ⟨nb0, hnb, by omega, hquote, ?_⟩
      intro j h1 h2
      rcases Nat.lt_or_ge j i with hj | hj
      · exact hnoq j h1 hj
      · have hji : j = i := by omega
        subst hji
        rw [hc]
        intro hcontra
        injection hcontra with h3
        exact hc34 h3
  case DONE =>
    split at h
    · exact StepResult.noConfusion h
    split at h
    · exact StepResult.noConfusion h
    split at h
    · exact StepResult.noConfusion h
    split at h
    · exact StepResult.noConfusion h
    exact StepResult.noConfusion h

/-- When an iteration emits the success record, the invariant yields the
verbatim-slice shape of the name against the full line. -/
theorem step_success_name {resp : List Nat} {m : Machine} {e : MailboxEntry}
    (hInv : NameInv resp m) (h : step resp m = StepResult.success e) :
    ∃ nb, e.name = some (pslice resp nb (resp.length - 1)) ∧
      byteAt resp (nb - 1) = some 34 ∧
      byteAt resp (resp.length - 1) = some 34 ∧
      ∀ j, nb ≤ j → j < resp.length - 1 → byteAt resp j ≠ some 34 := by
  obtain ⟨i, st, attrs, hd1, hd2, nm, ab, db, nbi⟩ := m
  unfold step at h
  split at h
  · exact StepResult.noConfusion h
  cases st <;> dsimp only at h hInv
  case DONE =>
    split at h
    · exact StepResult.noConfusion h
    rename_i hilen
    rw [not_not] at hilen
    split at h
    · exact StepResult.noConfusion h
    split at h
    · exact StepResult.noConfusion h
    split at h
    · exact StepResult.noConfusion h
    injection h with h2
    subst h2
    obtain ⟨nb0, hname, h1le, hquote, hclose, hnoq⟩ := hInv.2 rfl
    dsimp only at hname h1le hclose hnoq
    subst hilen
    exact ⟨nb0, hname, hquote, hclose, hnoq⟩
  all_goals repeat' split at h
  all_goals exact StepResult.noConfusion h

/-- Lifting of the name-field invariant through the fuelled loop. -/
theorem run_success_name {resp : List Nat} :
    ∀ (fuel : Nat) (m : Machine) (e : MailboxEntry), NameInv resp m →
      run resp fuel m = some (Outcome.success e) →
      ∃ nb, e.name = some (pslice resp nb (resp.length - 1)) ∧
        byteAt resp (nb - 1) = some 34 ∧
        byteAt resp (resp.length - 1) = some 34 ∧
        ∀ j, nb ≤ j → j < resp.length - 1 → byteAt resp j ≠ some 34 := by
  intro fuel
  induction fuel with
  | zero =>
    intro m e hInv h
    simp [run] at h
  | succ n ih =>
    intro m e hInv h
    rw [run] at h
    cases hs : step resp m with
    | next m2 =>
      rw [hs] at h
      exact ih m2 e (step_preserves_NameInv hInv hs) h
    | success e2 =>
      rw [hs] at h
      simp only [Option.some.injEq, Outcome.success.injEq] at h
      subst h
      exact step_success_name hInv hs
    | crash p =>
      rw [hs] at h
      simp at h

/-- The initial machine satisfies the name-field invariant. -/
theorem initMachine_NameInv (resp : List Nat) : NameInv resp initMachine := by
  constructor
  · intro hst
    simp [initMachine] at hst
  · intro hst
    simp [initMachine] at hst

/-- C10: on every successful parse the recorded name is exactly the
verbatim byte slice of the line from the position just after a quote
byte (the name's opening quote) up to the line's final byte, which is a
closing quote; no byte in between is a quote, so in particular the
returned name never contains a double-quote byte and no decoding of any
kind is applied. -/
theorem parse_name_verbatim (resp : List Nat) (e : MailboxEntry)
    (h : parse resp = some (Outcome.success e)) :
    ∃ nb, e.name = some (pslice resp nb (resp.length - 1)) ∧
      byteAt resp (nb - 1) = some 34 ∧
      byteAt resp (resp.length - 1) = some 34 ∧
      (∀ j, nb ≤ j → j < resp.length - 1 → byteAt resp j ≠ some 34) ∧
      34 ∉ pslice resp nb (resp.length - 1) := by
  obtain ⟨nb, h1, h2, h3, h4⟩ :=
    run_success_name (resp.length + 2) initMachine e (initMachine_NameInv resp) h
  refine ⟨nb, h1, h2, h3, h4, ?_⟩
  intro hmem
  obtain ⟨j, hj1, hj2, hj3⟩ := mem_pslice resp nb (resp.length - 1) 34 hmem
  exact h4 j hj1 hj2 hj3

/-- Concrete instance of the verbatim-name theorem on the `INBOX`
example line. -/
theorem parse_name_verbatim_witness :
    ∃ nb,
      (MailboxEntry.mk [strBytes "\\HasNoChildren"] (some (strBytes "/"))
          (some (strBytes "INBOX"))).name
        = some (pslice lineInbox nb (lineInbox.length - 1)) ∧
      byteAt lineInbox (nb - 1) = some 34 ∧
      byteAt lineInbox (lineInbox.length - 1) = some 34 ∧
      (∀ j, nb ≤ j → j < lineInbox.length - 1 →
        byteAt lineInbox j ≠ some 34) ∧
      34 ∉ pslice lineInbox nb (lineInbox.length - 1) :=
  parse_name_verbatim lineInbox
    (MailboxEntry.mk [strBytes "\\HasNoChildren"] (some (strBytes "/"))
      (some (strBytes "INBOX"))) (by rfl)
